import Mathlib

/-!
Verification of `simple_logger/logger.py` (myakove/python-simple-logger).

The file shallowly embeds the two filters (`DuplicateFilter`, `RedactingFilter`),
the `SimpleLogger.hash` convenience method and the `get_logger`
configurator/registry as pure Lean functions, translated directly from the
Python source, and proves the frozen claims about them.

Modelling conventions:
  * A log record is the triple of fields the filters read
    (`module`, `levelno`, `msg`); `record.created` and the other fields are
    never inspected by the embedded code, so they are omitted.
  * Python attribute-absence (`getattr(self, "x", None)`) is modelled with
    `Option`; Python truthiness of an optional integer
    (`None` and `0` falsy) is `pyTruthy`.
  * The warning emitted through the module-level logger is modelled as an
    `Option String` side channel of each `filter` call.
  * Python `re.sub(p, repl, msg, re.IGNORECASE)` passes `re.IGNORECASE = 2`
    as the positional `count` argument, so the embedding performs at most two
    replacements and matches case-sensitively; the regex
    `({pattern}\W+[^\s+]+)` is embedded for literal keyword patterns
    (the keywords the program uses contain no regex metacharacters).
-/

/-- The fields of a `logging.LogRecord` that the embedded code reads. -/
structure LogRecord where
  module : String
  levelno : Int
  msg : String
deriving DecidableEq

/-- The `(record.module, record.levelno, record.msg)` triple that
`DuplicateFilter.filter` computes as `current_log`. -/
def tr (r : LogRecord) : String × Int × String := (r.module, r.levelno, r.msg)

/-- State of a `DuplicateFilter` instance: the two attributes that
`filter` reads with `getattr(self, _, None)`; a fresh instance has neither. -/
structure DuplicateFilter where
  last_log : Option (String × Int × String) := none
  repeated_number : Option Nat := none
deriving DecidableEq

/-- Python truthiness of an optional integer: `None` and `0` are falsy. -/
def pyTruthy : Option Nat → Bool
  | none => false
  | some n => n != 0

/-- Transition of `DuplicateFilter.filter` from the source: returns
the boolean the Python method returns, the updated state, and the warning
text passed to `LOGGER.warning` (the module-level logger side channel),
`none` when no warning is emitted during the call. -/
def DuplicateFilter.filter (f : DuplicateFilter) (r : LogRecord) :
    Bool × DuplicateFilter × Option String :=
  let current := tr r
  if some current ≠ f.last_log then
    let warn : Option String :=
      if pyTruthy f.repeated_number then
        some ("Last log repeated " ++ toString (f.repeated_number.getD 0) ++ " times.")
      else none
    (true, { last_log := some current, repeated_number := some 0 }, warn)
  else
    if pyTruthy f.repeated_number then
      (false, { f with repeated_number := some (f.repeated_number.getD 0 + 1) }, none)
    else
      (false, { f with repeated_number := some 1 }, none)

/-- Run a `DuplicateFilter` over a list of records, returning the final state. -/
def runAll (f : DuplicateFilter) : List LogRecord → DuplicateFilter
  | [] => f
  | r :: rs => runAll (f.filter r).2.1 rs

/-- Run a `DuplicateFilter` over a list of records, returning for each record
the emitted boolean and the warning side channel of that call. -/
def runOuts (f : DuplicateFilter) : List LogRecord → List (Bool × Option String)
  | [] => []
  | r :: rs => ((f.filter r).1, (f.filter r).2.2) :: runOuts (f.filter r).2.1 rs

theorem filter_last_log (f : DuplicateFilter) (r : LogRecord) :
    ((f.filter r).2.1).last_log = some (tr r) := by
  unfold DuplicateFilter.filter
  by_cases h : some (tr r) ≠ f.last_log
  · simp [h]
  · push_neg at h
    simp [h.symm]
    by_cases ht : pyTruthy f.repeated_number <;> simp [ht, ← h]

theorem runAll_append (f : DuplicateFilter) (rs : List LogRecord) (r : LogRecord) :
    runAll f (rs ++ [r]) = ((runAll f rs).filter r).2.1 := by
  induction rs generalizing f with
  | nil => simp [runAll]
  | cons a as ih => simp [runAll, ih]

theorem runAll_last_log (f : DuplicateFilter) (rs : List LogRecord) (r : LogRecord) :
    (runAll f (rs ++ [r])).last_log = some (tr r) := by
  rw [runAll_append]; exact filter_last_log _ _

/-- After at least one record, `repeated_number` is always set. -/
theorem filter_repeated_number_isSome (f : DuplicateFilter) (r : LogRecord) :
    ((f.filter r).2.1).repeated_number.isSome := by
  unfold DuplicateFilter.filter
  by_cases h : some (tr r) ≠ f.last_log
  · simp [h]
  · by_cases ht : pyTruthy f.repeated_number <;> simp [h, ht]

/-- A duplicate call (state already recording the same triple) suppresses the
record, emits no warning and bumps the counter by one. -/
theorem filter_duplicate (f : DuplicateFilter) (r : LogRecord)
    (h : f.last_log = some (tr r)) :
    f.filter r = (false,
      { f with repeated_number := some (f.repeated_number.getD 0 + 1) }, none) := by
  unfold DuplicateFilter.filter
  rw [h]
  simp only [ne_eq, not_true_eq_false, if_neg, if_false, not_not]
  cases hn : f.repeated_number with
  | none => simp [pyTruthy, hn]
  | some n =>
    by_cases hz : n = 0
    · subst hz; simp [pyTruthy, hn]
    · simp [pyTruthy, hn, hz]

/-- A distinct call (state recording a different value, or nothing) passes the
record, stores the new triple, resets the counter to zero, and emits the
repeat warning exactly when the stored counter was a nonzero number. -/
theorem filter_distinct (f : DuplicateFilter) (r : LogRecord)
    (h : f.last_log ≠ some (tr r)) :
    f.filter r = (true, { last_log := some (tr r), repeated_number := some 0 },
      if pyTruthy f.repeated_number then
        some ("Last log repeated " ++ toString (f.repeated_number.getD 0) ++ " times.")
      else none) := by
  unfold DuplicateFilter.filter
  rw [if_pos (fun hc => h hc.symm)]

/-- C1, main clause, suppression part: if the next record has the same triple
as the immediately preceding evaluated record, `filter` returns `false` and
the counter grows by one. -/
theorem claim_C1 (f₀ : DuplicateFilter) (rs : List LogRecord) (r r₁ : LogRecord) :
    (tr r₁ = tr r →
        ((runAll f₀ (rs ++ [r])).filter r₁).1 = false ∧
        ((runAll f₀ (rs ++ [r])).filter r₁).2.1.repeated_number.getD 0 =
          (runAll f₀ (rs ++ [r])).repeated_number.getD 0 + 1) ∧
    (tr r₁ ≠ tr r →
        ((runAll f₀ (rs ++ [r])).filter r₁).1 = true) ∧
    runOuts { } [r, r, r] =
      [(true, none), (false, none), (false, none)] := by
  refine ⟨?_, ?_, ?_⟩
  · intro heq
    have hl : (runAll f₀ (rs ++ [r])).last_log = some (tr r₁) := by
      rw [runAll_last_log, heq]
    rw [filter_duplicate _ _ hl]
    exact ⟨rfl, rfl⟩
  · intro hne
    have hl : (runAll f₀ (rs ++ [r])).last_log ≠ some (tr r₁) := by
      rw [runAll_last_log]
      exact fun hc => hne (Option.some_injective _ hc.symm)
    rw [filter_distinct _ _ hl]
  · have h1 : (DuplicateFilter.filter { } r) =
        (true, { last_log := some (tr r), repeated_number := some 0 }, none) := by
      rw [filter_distinct { } r (by simp)]
      simp [pyTruthy]
    have h2 : (DuplicateFilter.filter
        { last_log := some (tr r), repeated_number := some 0 } r) =
        (false, { last_log := some (tr r), repeated_number := some 1 }, none) := by
      rw [filter_duplicate _ r rfl]; rfl
    have h3 : (DuplicateFilter.filter
        { last_log := some (tr r), repeated_number := some 1 } r) =
        (false, { last_log := some (tr r), repeated_number := some 2 }, none) := by
      rw [filter_duplicate _ r rfl]; rfl
    simp [runOuts, h1, h2, h3]

theorem claim_C1_witness :
    (((runAll { } ([] ++ [⟨"mod", 20, "x"⟩])).filter ⟨"mod", 20, "x"⟩).1 = false ∧
      ((runAll { } ([] ++ [⟨"mod", 20, "x"⟩])).filter
          ⟨"mod", 20, "x"⟩).2.1.repeated_number.getD 0 =
        (runAll { } ([] ++ [⟨"mod", 20, "x"⟩])).repeated_number.getD 0 + 1) ∧
    ((runAll { } ([] ++ [⟨"mod", 20, "x"⟩])).filter ⟨"mod", 20, "y"⟩).1 = true := by
  refine ⟨(claim_C1 { } [] ⟨"mod", 20, "x"⟩ ⟨"mod", 20, "x"⟩).1 rfl, ?_⟩
  exact (claim_C1 { } [] ⟨"mod", 20, "x"⟩ ⟨"mod", 20, "y"⟩).2.1 (by decide)

/-- A state that records triple `t` with counter `c`, fed `n` copies of a
record with triple `t`, suppresses all of them with no warning and ends with
counter `c + n`. -/
theorem dup_run (r : LogRecord) (n : Nat) :
    ∀ (f : DuplicateFilter) (c : Nat),
      f.last_log = some (tr r) → f.repeated_number = some c →
      runOuts f (List.replicate n r) = List.replicate n (false, none) ∧
      runAll f (List.replicate n r) =
        { last_log := some (tr r), repeated_number := some (c + n) } := by
  induction n with
  | zero =>
    intro f c h1 h2
    cases f
    simp_all [runOuts, runAll]
  | succ n ih =>
    intro f c h1 h2
    have hstep := filter_duplicate f r h1
    rw [h2] at hstep
    simp only [Option.getD_some] at hstep
    have hrec := ih { f with repeated_number := some (c + 1) }
      (c + 1) (by simpa using h1) rfl
    constructor
    · simp only [List.replicate_succ]
      rw [runOuts, hstep]
      exact congrArg (List.cons (false, none)) hrec.1
    · simp only [List.replicate_succ]
      rw [runAll, hstep, hrec.2]
      have hc : c + 1 + n = c + (n + 1) := by omega
      rw [hc]

/-- C2: after a distinct record followed by `n` suppressed duplicates, the
duplicates each emit nothing, and the next distinct record passes and carries
on its side channel exactly one warning, "Last log repeated n times.", when
`n ≥ 1`, and no warning when `n = 0`. -/
theorem claim_C2 (f₀ : DuplicateFilter) (r r₁ : LogRecord) (n : Nat)
    (h₀ : f₀.last_log ≠ some (tr r)) (hne : tr r₁ ≠ tr r) :
    runOuts ((f₀.filter r).2.1) (List.replicate n r) =
      List.replicate n (false, none) ∧
    ((runAll ((f₀.filter r).2.1) (List.replicate n r)).filter r₁).1 = true ∧
    ((runAll ((f₀.filter r).2.1) (List.replicate n r)).filter r₁).2.2 =
      (if n = 0 then none
       else some ("Last log repeated " ++ toString n ++ " times.")) := by
  have hstep := filter_distinct f₀ r h₀
  have hst : (f₀.filter r).2.1 =
      { last_log := some (tr r), repeated_number := some 0 } := by
    rw [hstep]
  have hrun := dup_run r n { last_log := some (tr r), repeated_number := some 0 }
    0 rfl rfl
  refine ⟨by rw [hst]; exact hrun.1, ?_, ?_⟩
  · rw [hst, hrun.2]
    rw [filter_distinct _ r₁ (by
      simp only [ne_eq, Option.some.injEq]
      exact fun hc => hne hc.symm)]
  · rw [hst, hrun.2]
    rw [filter_distinct _ r₁ (by
      simp only [ne_eq, Option.some.injEq]
      exact fun hc => hne hc.symm)]
    by_cases hz : n = 0
    · subst hz; rfl
    · simp [pyTruthy, hz]

theorem claim_C2_witness :
    runOuts ((DuplicateFilter.filter { } ⟨"mod", 20, "a"⟩).2.1)
        (List.replicate 2 ⟨"mod", 20, "a"⟩) = List.replicate 2 (false, none) ∧
    ((runAll ((DuplicateFilter.filter { } ⟨"mod", 20, "a"⟩).2.1)
        (List.replicate 2 ⟨"mod", 20, "a"⟩)).filter ⟨"mod", 20, "b"⟩).1 = true ∧
    ((runAll ((DuplicateFilter.filter { } ⟨"mod", 20, "a"⟩).2.1)
        (List.replicate 2 ⟨"mod", 20, "a"⟩)).filter ⟨"mod", 20, "b"⟩).2.2 =
      (if 2 = 0 then none
       else some ("Last log repeated " ++ toString 2 ++ " times.")) :=
  claim_C2 { } ⟨"mod", 20, "a"⟩ ⟨"mod", 20, "b"⟩ 2 (by decide) (by decide)

/-- C3: the first record given to a fresh `DuplicateFilter` always passes,
with no warning on the side channel; `filter` is a total function, so the
call cannot fail. -/
theorem claim_C3 (r : LogRecord) :
    (DuplicateFilter.filter { } r).1 = true ∧
    (DuplicateFilter.filter { } r).2.2 = none := by
  rw [filter_distinct { } r (by simp)]
  exact ⟨rfl, rfl⟩

/-- Python regex word character `\w` (over the ASCII alphabet of the
messages at hand): letter, digit or underscore. -/
def wordChar (c : Char) : Bool := c.isAlphanum || c == '_'

/-- Python regex whitespace `\s`: space, tab, newline, carriage return,
vertical tab, form feed. -/
def spaceChar (c : Char) : Bool :=
  c == ' ' || c == '\t' || c == '\n' || c == '\r' || c == '\x0b' || c == '\x0c'

/-- A character accepted by the character class of the value token in the
source regex: not whitespace and not a plus sign. -/
def valChar (c : Char) : Bool := !spaceChar c && c != '+'

/-- Whether the head of the list can start the value token. -/
def headVal : List Char → Bool
  | [] => false
  | c :: _ => valChar c

/-- Greedy backtracking of the one-or-more non-word-character part: the
largest `j` with `1 ≤ j ≤ w` such that the character `j` places further on
can start the value token; `none` when no such `j` exists. -/
def bestJ (rest : List Char) : Nat → Option Nat
  | 0 => none
  | j + 1 => if headVal (rest.drop (j + 1)) then some (j + 1) else bestJ rest j

/-- Length of the match of the source regex (keyword, then one or more
non-word characters, then one or more value-token characters) anchored at the
head of `s`, with Python greedy-backtracking semantics; `none` when the
regex does not match at this position.  The keyword is taken literally,
matching the keywords the program configures, which contain no regex
metacharacters. -/
def matchLen (k s : List Char) : Option Nat :=
  if k.isPrefixOf s then
    match bestJ (s.drop k.length)
        (((s.drop k.length).takeWhile (fun c => !wordChar c)).length) with
    | none => none
    | some j =>
      some (k.length + j + (((s.drop k.length).drop j).takeWhile valChar).length)
  else none

/-- Scanning loop of Python substitution: walk `s` left to right, replace the
span of each match by `repl` and resume after the span, performing at most
`count` replacements and copying the remainder verbatim.  `fuel` only bounds
the recursion; every call site passes `fuel = s.length`, which suffices since
each step consumes at least one character. -/
def pySubFuel (k repl : List Char) : Nat → Nat → List Char → List Char
  | _, _, [] => []
  | 0, _, s => s
  | _ + 1, 0, s => s
  | fuel + 1, count + 1, c :: rest =>
    match matchLen k (c :: rest) with
    | some len => repl ++ pySubFuel k repl fuel count (rest.drop (len - 1))
    | none => c :: pySubFuel k repl fuel (count + 1) rest

/-- Replacement string of the source: the keyword, a space, five asterisks
and a trailing space. -/
def maskRepl (pattern : String) : List Char := pattern.data ++ (" ***** ").data

/-- `RedactingFilter.redact` from the source: for each pattern in list order,
substitute on the output of the previous pattern.  The source passes
`re.IGNORECASE` (numerically 2) positionally as the `count` argument of
`re.sub`, so each substitution performs at most two replacements and matches
case-sensitively. -/
def redact (patterns : List String) (msg : String) : String :=
  patterns.foldl
    (fun m p => String.mk (pySubFuel p.data (maskRepl p) m.data.length 2 m.data)) msg

/-- `RedactingFilter.filter` from the source: replaces `record.msg` by the
redacted message in place and always returns `True`. -/
def RedactingFilter.filter (patterns : List String) (r : LogRecord) :
    Bool × LogRecord :=
  (true, { r with msg := redact patterns r.msg })

/-- Modelled from the spec wording of C4, which asks that EACH matched span
be replaced: the same scan with no bound on the number of replacements. -/
def pySubAllFuel (k repl : List Char) : Nat → List Char → List Char
  | _, [] => []
  | 0, s => s
  | fuel + 1, c :: rest =>
    match matchLen k (c :: rest) with
    | some len => repl ++ pySubAllFuel k repl fuel (rest.drop (len - 1))
    | none => c :: pySubAllFuel k repl fuel rest

/-- Modelled from the spec wording of C4: redaction that replaces every
matched span of every pattern, in list order. -/
def redactSpecEachSpan (patterns : List String) (msg : String) : String :=
  patterns.foldl
    (fun m p => String.mk (pySubAllFuel p.data (maskRepl p) m.data.length m.data)) msg

/-- Declarative leftmost match: the smallest position `i` of `s` at which the
regex matches, paired with the match length there. -/
def firstMatch (k s : List Char) : Option (Nat × Nat) :=
  match (List.range (s.length + 1)).find? (fun i => (matchLen k (s.drop i)).isSome) with
  | none => none
  | some i =>
    match matchLen k (s.drop i) with
    | some len => some (i, len)
    | none => none

/-- Substitution characterized through `firstMatch`: replace the span of the
leftmost match and continue after it, at most `count` times. -/
def subSpec (k repl : List Char) : Nat → List Char → List Char
  | 0, s => s
  | count + 1, s =>
    match firstMatch k s with
    | none => s
    | some (i, len) => s.take i ++ repl ++ subSpec k repl count ((s.drop i).drop len)

/-- Redaction phrased through `subSpec`: for each pattern in list order,
replace at most the first two leftmost matched spans of that pattern in the
output of the previous pattern. -/
def redactSpecTwoSpans (patterns : List String) (msg : String) : String :=
  patterns.foldl (fun m p => String.mk (subSpec p.data (maskRepl p) 2 m.data)) msg

/-- Boolean substring containment. -/
def containsSub (needle hay : List Char) : Bool :=
  (List.range (hay.length + 1)).any (fun i => needle.isPrefixOf (hay.drop i))

theorem matchLen_nil (k : List Char) : matchLen k [] = none := by
  cases k with
  | nil => simp [matchLen, bestJ, List.isPrefixOf]
  | cons a as => simp [matchLen, List.isPrefixOf]

theorem bestJ_pos (rest : List Char) (w j : Nat) (h : bestJ rest w = some j) :
    1 ≤ j := by
  induction w with
  | zero => simp [bestJ] at h
  | succ w ih =>
    rw [bestJ] at h
    by_cases hv : headVal (rest.drop (w + 1))
    · rw [if_pos hv] at h
      simp only [Option.some.injEq] at h
      omega
    · rw [if_neg hv] at h
      exact ih h

theorem matchLen_pos (k s : List Char) (len : Nat) (h : matchLen k s = some len) :
    1 ≤ len := by
  simp only [matchLen] at h
  split at h
  · split at h
    · simp at h
    · rename_i j hb
      simp only [Option.some.injEq] at h
      have hj := bestJ_pos _ _ _ hb
      omega
  · simp at h

theorem firstMatch_nil (k : List Char) : firstMatch k [] = none := by
  simp [firstMatch, List.range_succ, matchLen_nil]

theorem firstMatch_head (k s : List Char) (len : Nat) (h : matchLen k s = some len) :
    firstMatch k s = some (0, len) := by
  unfold firstMatch
  rw [List.range_succ_eq_map, List.find?_cons_of_pos _ (by simp [h])]
  simp [h]

theorem firstMatch_cons (k : List Char) (c : Char) (rest : List Char)
    (h : matchLen k (c :: rest) = none) :
    firstMatch k (c :: rest) =
      (firstMatch k rest).map (fun p => (p.1 + 1, p.2)) := by
  unfold firstMatch
  have hlen : (c :: rest).length + 1 = rest.length + 1 + 1 := by simp
  rw [hlen, List.range_succ_eq_map,
    List.find?_cons_of_neg _ (by simp [h]), List.find?_map]
  have hcomp : ((fun i => (matchLen k ((c :: rest).drop i)).isSome) ∘ Nat.succ) =
      (fun i => (matchLen k (rest.drop i)).isSome) := by
    funext i
    simp [Function.comp, List.drop_succ_cons]
  rw [hcomp]
  cases hf : (List.range (rest.length + 1)).find?
      (fun i => (matchLen k (rest.drop i)).isSome) with
  | none => simp
  | some i =>
    have hp := List.find?_some hf
    simp only [Option.map_some', List.drop_succ_cons]
    cases hm : matchLen k (rest.drop i) with
    | none => rw [hm] at hp; simp at hp
    | some len => simp [hm]

/-- The character-by-character substitution scan of the source equals the
declarative leftmost-span substitution, whenever the fuel covers the input. -/
theorem pySubFuel_eq_subSpec (k repl : List Char) :
    ∀ (fuel count : Nat) (s : List Char), s.length ≤ fuel →
      pySubFuel k repl fuel count s = subSpec k repl count s := by
  intro fuel
  induction fuel with
  | zero =>
    intro count s hs
    have hnil : s = [] := List.eq_nil_of_length_eq_zero (Nat.le_zero.mp hs)
    subst hnil
    cases count with
    | zero => rfl
    | succ n => simp [pySubFuel, subSpec, firstMatch_nil]
  | succ fuel ih =>
    intro count s hs
    cases s with
    | nil =>
      cases count with
      | zero => rfl
      | succ n => simp [pySubFuel, subSpec, firstMatch_nil]
    | cons c rest =>
      cases count with
      | zero => rfl
      | succ count =>
        have hrest : rest.length ≤ fuel := by
          simpa using Nat.le_of_succ_le_succ (by simpa using hs)
        rw [pySubFuel]
        cases hm : matchLen k (c :: rest) with
        | some len =>
          rw [subSpec, firstMatch_head _ _ _ hm]
          simp only [List.take_zero, List.drop_zero, List.nil_append]
          have hpos := matchLen_pos _ _ _ hm
          obtain ⟨m, rfl⟩ : ∃ m, len = m + 1 := ⟨len - 1, by omega⟩
          simp only [List.drop_succ_cons, Nat.add_sub_cancel]
          exact congrArg (repl ++ ·)
            (ih count (rest.drop m)
              (le_trans (by simp [List.length_drop]) hrest))
        | none =>
          rw [subSpec, firstMatch_cons _ _ _ hm]
          cases hf : firstMatch k rest with
          | none =>
            have htail : pySubFuel k repl fuel (count + 1) rest = rest := by
              rw [ih (count + 1) rest hrest, subSpec, hf]
            simp [htail]
          | some p =>
            obtain ⟨i, len⟩ := p
            have htail : pySubFuel k repl fuel (count + 1) rest =
                rest.take i ++ repl ++ subSpec k repl count ((rest.drop i).drop len) := by
              rw [ih (count + 1) rest hrest, subSpec, hf]
            simp [htail, List.take_succ_cons, List.drop_succ_cons]

/-- C4, counterexample: the claim says EVERY matched span is replaced, but
the source passes `re.IGNORECASE` (= 2) as the `count` argument of `re.sub`,
so with three matched spans the third survives: redacting `"key"` in
`"key:a key:b key:c"` differs from the spec-worded each-span redaction and the
third span `"key:c"` is still present in the output. -/
theorem claim_C4_counterexample :
    redact ["key"] "key:a key:b key:c" ≠
      redactSpecEachSpan ["key"] "key:a key:b key:c" ∧
    containsSub ("key:c").data (redact ["key"] "key:a key:b key:c").data = true := by
  decide

/-- C4, amended: for every configured keyword, in list order and each
operating on the previous output, the redaction replaces AT MOST THE FIRST
TWO leftmost matched spans (keyword, one or more non-word characters, then
one or more characters that are neither whitespace nor a plus sign) with
the keyword followed by a space, five asterisks and a trailing space. -/
theorem claim_C4 (patterns : List String) (msg : String) :
    redact patterns msg = redactSpecTwoSpans patterns msg := by
  unfold redact redactSpecTwoSpans
  induction patterns generalizing msg with
  | nil => rfl
  | cons p ps ih =>
    simp only [List.foldl_cons]
    rw [pySubFuel_eq_subSpec p.data (maskRepl p) msg.data.length 2 msg.data (le_refl _)]
    exact ih _

/-- C5: on `"This is my password: pass123"` with the single pattern
`"password"`, the filter emits the record and the rewritten message contains
`"password *****"` and no longer contains `"pass123"`. -/
theorem claim_C5 :
    (RedactingFilter.filter ["password"]
        ⟨"mod", 20, "This is my password: pass123"⟩).1 = true ∧
    containsSub ("password *****").data
      ((RedactingFilter.filter ["password"]
          ⟨"mod", 20, "This is my password: pass123"⟩).2).msg.data = true ∧
    containsSub ("pass123").data
      ((RedactingFilter.filter ["password"]
          ⟨"mod", 20, "This is my password: pass123"⟩).2).msg.data = false := by
  decide

/-- Unfolding `redact` for a single pattern through the declarative
substitution. -/
theorem redact_single (k : String) (msg : String) :
    redact [k] msg = String.mk (subSpec k.data (maskRepl k) 2 msg.data) := by
  unfold redact
  simp only [List.foldl_cons, List.foldl_nil]
  rw [pySubFuel_eq_subSpec _ _ _ _ _ (le_refl _)]

/-- When the keyword never occurs literally, the scan copies the message
verbatim for any fuel and any replacement budget. -/
theorem pySubFuel_no_match (k repl : List Char) :
    ∀ (fuel count : Nat) (s : List Char),
      (∀ i, i < s.length → k.isPrefixOf (s.drop i) = false) →
      pySubFuel k repl fuel count s = s := by
  intro fuel
  induction fuel with
  | zero =>
    intro count s h
    cases s with
    | nil => rfl
    | cons c rest => rfl
  | succ fuel ih =>
    intro count s h
    cases s with
    | nil => cases count <;> rfl
    | cons c rest =>
      cases count with
      | zero => rfl
      | succ count =>
        have h0 : k.isPrefixOf (c :: rest) = false := by
          simpa using h 0 (by simp)
        have hm : matchLen k (c :: rest) = none := by
          simp [matchLen, h0]
        rw [pySubFuel, hm]
        exact congrArg (c :: ·)
          (ih (count + 1) rest (fun i hi => by
            simpa [List.drop_succ_cons] using
              h (i + 1) (by simpa using Nat.succ_lt_succ hi)))

/-- C10: the redaction of one keyword replaces at most the first two
leftmost matched spans; everything from the end of the second span onwards,
including any later occurrence, is the original text copied verbatim; and
matching is case-sensitive: a message with no exact-case occurrence of the
keyword is returned unchanged. -/
theorem claim_C10 :
    (∀ (k msg : String) (i₁ len₁ i₂ len₂ : Nat),
        firstMatch k.data msg.data = some (i₁, len₁) →
        firstMatch k.data (msg.data.drop (i₁ + len₁)) = some (i₂, len₂) →
        redact [k] msg = String.mk
          (msg.data.take i₁ ++ maskRepl k ++
            (msg.data.drop (i₁ + len₁)).take i₂ ++ maskRepl k ++
            (msg.data.drop (i₁ + len₁)).drop (i₂ + len₂))) ∧
    (∀ (k msg : String),
        (∀ i, i < msg.data.length → k.data.isPrefixOf (msg.data.drop i) = false) →
        redact [k] msg = msg) := by
  constructor
  · intro k msg i₁ len₁ i₂ len₂ h₁ h₂
    rw [redact_single]
    apply congrArg String.mk
    have e1 : subSpec k.data (maskRepl k) 2 msg.data =
        msg.data.take i₁ ++ maskRepl k ++
          subSpec k.data (maskRepl k) 1 ((msg.data.drop i₁).drop len₁) := by
      rw [show (2 : Nat) = 1 + 1 from rfl, subSpec, h₁]
    have e2 : subSpec k.data (maskRepl k) 1 (msg.data.drop (i₁ + len₁)) =
        (msg.data.drop (i₁ + len₁)).take i₂ ++ maskRepl k ++
          ((msg.data.drop (i₁ + len₁)).drop i₂).drop len₂ := by
      rw [show (1 : Nat) = 0 + 1 from rfl, subSpec, h₂]
      simp [subSpec]
    rw [e1, List.drop_drop, e2, List.drop_drop]
    simp [List.append_assoc]
  · intro k msg h
    have hid := pySubFuel_no_match k.data (maskRepl k) msg.data.length 2 msg.data h
    show String.mk (pySubFuel k.data (maskRepl k) msg.data.length 2 msg.data) = msg
    rw [hid]

theorem claim_C10_witness :
    redact ["key"] "key:a key:b key:c" = String.mk
      (("key:a key:b key:c").data.take 0 ++ maskRepl "key" ++
        (("key:a key:b key:c").data.drop (0 + 5)).take 1 ++ maskRepl "key" ++
        (("key:a key:b key:c").data.drop (0 + 5)).drop (1 + 5)) ∧
    redact ["password"] "MY PASSWORD: x" = "MY PASSWORD: x" :=
  ⟨claim_C10.1 "key" "key:a key:b key:c" 0 5 1 5 (by decide) (by decide),
    claim_C10.2 "password" "MY PASSWORD: x" (by decide)⟩

/-- Custom severity level `SUCCESS` registered by `SimpleLogger`. -/
def SUCCESS : Int := 32

/-- Custom severity level `HASH` registered by `SimpleLogger`. -/
def HASH : Int := 33

/-- Scanning loop of Python `str.replace` for a nonempty needle: replace
every non-overlapping occurrence, left to right.  `fuel` only bounds the
recursion; call sites pass `fuel = s.length`, which suffices since every
step consumes at least one character. -/
def replScanFuel (old new : List Char) : Nat → List Char → List Char
  | _, [] => []
  | 0, s => s
  | fuel + 1, c :: rest =>
    if old.isPrefixOf (c :: rest) then
      new ++ replScanFuel old new fuel (rest.drop (old.length - 1))
    else c :: replScanFuel old new fuel rest

/-- Python `str.replace(old, new)` on character lists: all occurrences are
replaced; an empty needle inserts `new` at every gap, as Python does. -/
def pyReplaceAll (old new s : List Char) : List Char :=
  if old.isEmpty then new ++ s.foldr (fun c acc => c :: (new ++ acc)) []
  else replScanFuel old new s.length s

/-- `SimpleLogger.hash` from the source: replace each literal of the `hash`
list in the message by five asterisks, in list order, then log at the `HASH`
level; the result is the level used and the message handed to `self.log`. -/
def SimpleLogger.hash (msg : String) (to_hash : List String) : Int × String :=
  (HASH,
    to_hash.foldl (fun m h => String.mk (pyReplaceAll h.data ("*****").data m.data)) msg)

/-- Greedy left-to-right split of `s` at the non-overlapping occurrences of
the needle `old`: the list of chunks between consecutive occurrences. -/
def pySplitFuel (old : List Char) : Nat → List Char → List (List Char)
  | _, [] => [[]]
  | 0, s => [s]
  | fuel + 1, c :: rest =>
    if old.isPrefixOf (c :: rest) then
      [] :: pySplitFuel old fuel (rest.drop (old.length - 1))
    else
      match pySplitFuel old fuel rest with
      | [] => [[c]]
      | chunk :: chunks => (c :: chunk) :: chunks

/-- Chunks of `s` between consecutive occurrences of `old`. -/
def pySplit (old s : List Char) : List (List Char) := pySplitFuel old s.length s

theorem pySplitFuel_ne_nil (old : List Char) :
    ∀ (fuel : Nat) (s : List Char), pySplitFuel old fuel s ≠ [] := by
  intro fuel
  induction fuel with
  | zero =>
    intro s
    cases s <;> simp [pySplitFuel]
  | succ fuel ih =>
    intro s
    cases s with
    | nil => simp [pySplitFuel]
    | cons c rest =>
      rw [pySplitFuel]
      by_cases hp : old.isPrefixOf (c :: rest)
      · simp [hp]
      · rw [if_neg hp]
        cases hL : pySplitFuel old fuel rest with
        | nil => exact absurd hL (ih rest)
        | cons chunk chunks => simp

theorem intercalate_sep_cons (sep b : List Char) (l : List (List Char)) :
    List.intercalate sep ([] :: b :: l) = sep ++ List.intercalate sep (b :: l) := by
  simp [List.intercalate]

theorem intercalate_head (sep : List Char) (c : Char) (chunk : List Char)
    (chunks : List (List Char)) :
    List.intercalate sep ((c :: chunk) :: chunks) =
      c :: List.intercalate sep (chunk :: chunks) := by
  cases chunks with
  | nil => simp [List.intercalate]
  | cons d t => simp [List.intercalate]

/-- The replacement scan equals masking through greedy split and rejoin. -/
theorem replScanFuel_intercalate (old new : List Char) :
    ∀ (fuel : Nat) (s : List Char),
      replScanFuel old new fuel s =
        List.intercalate new (pySplitFuel old fuel s) := by
  intro fuel
  induction fuel with
  | zero =>
    intro s
    cases s with
    | nil => simp [replScanFuel, pySplitFuel, List.intercalate]
    | cons c rest => simp [replScanFuel, pySplitFuel, List.intercalate]
  | succ fuel ih =>
    intro s
    cases s with
    | nil => simp [replScanFuel, pySplitFuel, List.intercalate]
    | cons c rest =>
      rw [replScanFuel, pySplitFuel]
      by_cases hp : old.isPrefixOf (c :: rest)
      · rw [if_pos hp, if_pos hp, ih]
        cases hL : pySplitFuel old fuel (rest.drop (old.length - 1)) with
        | nil => exact absurd hL (pySplitFuel_ne_nil old fuel _)
        | cons b l => exact (intercalate_sep_cons new b l).symm
      · rw [if_neg hp, if_neg hp, ih]
        cases hL : pySplitFuel old fuel rest with
        | nil => exact absurd hL (pySplitFuel_ne_nil old fuel rest)
        | cons chunk chunks =>
          exact (intercalate_head new c chunk chunks).symm

/-- C7: `SimpleLogger.hash` logs at the `HASH` severity level, numerically
33; with an empty `hash` list the message is unchanged; and for each
nonempty listed literal, the exact-substring replacement masks every
non-overlapping occurrence: the result is the message split at the
occurrences and rejoined with five asterisks. -/
theorem claim_C7 :
    (∀ (msg : String) (hs : List String), (SimpleLogger.hash msg hs).1 = 33) ∧
    (∀ msg : String, (SimpleLogger.hash msg []).2 = msg) ∧
    (∀ (h : String) (s : List Char), h.data ≠ [] →
        pyReplaceAll h.data ("*****").data s =
          List.intercalate ("*****").data (pySplit h.data s)) := by
  refine ⟨fun msg hs => rfl, fun msg => rfl, fun h s hne => ?_⟩
  unfold pyReplaceAll pySplit
  rw [if_neg (by simpa [List.isEmpty_iff] using hne)]
  exact replScanFuel_intercalate _ _ _ _

theorem claim_C7_witness :
    (SimpleLogger.hash "secret is X" ["X"]).1 = 33 ∧
    pyReplaceAll ("X").data ("*****").data ("secret is X").data =
      List.intercalate ("*****").data (pySplit ("X").data ("secret is X").data) :=
  ⟨claim_C7.1 "secret is X" ["X"],
    claim_C7.2.2 "X" ("secret is X").data (by decide)⟩

/-- A filter attached to a logger or to a handler. -/
inductive LogFilter
  | duplicate (st : DuplicateFilter)
  | redacting (patterns : List String)
deriving DecidableEq

/-- A handler attached to a logger: the console stream handler, or the
size-rotating file handler with the data the source sets on it.  Both carry
the same fixed color/timestamp formatter, which is therefore omitted. -/
inductive Handler
  | console (filters : List LogFilter)
  | rotatingFile (filename : String) (maxBytes : Nat) (backupCount : Nat)
      (level : Int) (filters : List LogFilter)
deriving DecidableEq

/-- The logger-object fields that `get_logger` configures. -/
structure LoggerObj where
  name : String
  level : Int
  handlers : List Handler
  filters : List LogFilter
  propagate : Bool
deriving DecidableEq

/-- Lookup in the module-level `LOGGERS` dict (a `Logger` object is always
truthy, so `if LOGGERS.get(name)` is a plain presence test). -/
def regGet : List (String × LoggerObj) → String → Option LoggerObj
  | [], _ => none
  | (n, l) :: rest, name => if n = name then some l else regGet rest name

/-- A fresh `DuplicateFilter()` instance: no attribute set yet. -/
def freshDup : DuplicateFilter := { }

/-- The default sensitive patterns of the source. -/
def defaultPatterns : List String := ["password", "token", "apikey", "secret"]

/-- The logger constructed by the cache-miss branch of `get_logger`, fields
written in the source's attachment order: the console handler (when
`console` is true) carrying its own fresh `DuplicateFilter`; then the level;
then the logger-level fresh `DuplicateFilter`; then, when `mask_sensitive`
is true, a `RedactingFilter` whose patterns follow the source's
`if not mask_sensitive_patterns` truthiness test (both `None` and the empty
list select the defaults); then the rotating file handler when `filename` is
truthy (non-None and nonempty); finally `propagate = False`. -/
def buildLogger (name : String) (level : Int) (filename : Option String)
    (console : Bool) (file_max_bytes file_backup_count : Nat)
    (mask_sensitive : Bool) (mask_sensitive_patterns : Option (List String)) :
    LoggerObj :=
  { name := name
    level := level
    handlers :=
      (if console then [Handler.console [LogFilter.duplicate freshDup]] else []) ++
        (match filename with
         | some f =>
           if f ≠ "" then
             [Handler.rotatingFile f file_max_bytes file_backup_count level []]
           else []
         | none => [])
    filters :=
      [LogFilter.duplicate freshDup] ++
        (if mask_sensitive then
           [LogFilter.redacting
             (match mask_sensitive_patterns with
              | none => defaultPatterns
              | some ps => if ps.isEmpty then defaultPatterns else ps)]
         else [])
    propagate := false }

/-- `get_logger` from the source: return the cached logger unchanged when
the name is registered (every other argument is ignored), otherwise build,
register and return a new one.  `logging.getLogger(name)` is modelled as
creating a bare logger, configured by `buildLogger`. -/
def get_logger (st : List (String × LoggerObj)) (name : String)
    (level : Int) (filename : Option String) (console : Bool)
    (file_max_bytes file_backup_count : Nat) (mask_sensitive : Bool)
    (mask_sensitive_patterns : Option (List String)) :
    LoggerObj × List (String × LoggerObj) :=
  match regGet st name with
  | some l => (l, st)
  | none =>
    let logger_obj := buildLogger name level filename console
      file_max_bytes file_backup_count mask_sensitive mask_sensitive_patterns
    (logger_obj, (name, logger_obj) :: st)

/-- C6: `get_logger` is idempotent per name: a second call with the same
name returns exactly the logger the first call returned, leaves the registry
exactly as the first call left it, whatever the other arguments of either
call are; and after the first call the registry maps the name to the
returned logger. -/
theorem claim_C6 (st : List (String × LoggerObj)) (name : String)
    (a₁ : Int) (a₂ : Option String) (a₃ : Bool) (a₄ a₅ : Nat) (a₆ : Bool)
    (a₇ : Option (List String))
    (b₁ : Int) (b₂ : Option String) (b₃ : Bool) (b₄ b₅ : Nat) (b₆ : Bool)
    (b₇ : Option (List String)) :
    (get_logger (get_logger st name a₁ a₂ a₃ a₄ a₅ a₆ a₇).2 name
        b₁ b₂ b₃ b₄ b₅ b₆ b₇).1 =
      (get_logger st name a₁ a₂ a₃ a₄ a₅ a₆ a₇).1 ∧
    (get_logger (get_logger st name a₁ a₂ a₃ a₄ a₅ a₆ a₇).2 name
        b₁ b₂ b₃ b₄ b₅ b₆ b₇).2 =
      (get_logger st name a₁ a₂ a₃ a₄ a₅ a₆ a₇).2 ∧
    regGet (get_logger st name a₁ a₂ a₃ a₄ a₅ a₆ a₇).2 name =
      some (get_logger st name a₁ a₂ a₃ a₄ a₅ a₆ a₇).1 := by
  cases hg : regGet st name with
  | some l => simp [get_logger, hg]
  | none => simp [get_logger, hg, regGet]

/-- C8: a first-time call with `console = true` yields a logger carrying a
console handler with its own fresh `DuplicateFilter`, a second fresh
`DuplicateFilter` attached to the logger itself, the requested level, and
propagation disabled.  (Object identity of the two filter instances is a
Python notion; the model records that each attachment point receives its own
fresh initial filter state.) -/
theorem claim_C8 (st : List (String × LoggerObj)) (name : String) (level : Int)
    (filename : Option String) (fmb fbc : Nat) (ms : Bool)
    (msp : Option (List String)) (h : regGet st name = none) :
    Handler.console [LogFilter.duplicate freshDup] ∈
      ((get_logger st name level filename true fmb fbc ms msp).1).handlers ∧
    LogFilter.duplicate freshDup ∈
      ((get_logger st name level filename true fmb fbc ms msp).1).filters ∧
    ((get_logger st name level filename true fmb fbc ms msp).1).level = level ∧
    ((get_logger st name level filename true fmb fbc ms msp).1).propagate = false := by
  simp [get_logger, h, buildLogger]

theorem claim_C8_witness :
    Handler.console [LogFilter.duplicate freshDup] ∈
      ((get_logger [] "app" 20 none true 104857600 20 false none).1).handlers ∧
    LogFilter.duplicate freshDup ∈
      ((get_logger [] "app" 20 none true 104857600 20 false none).1).filters ∧
    ((get_logger [] "app" 20 none true 104857600 20 false none).1).level = 20 ∧
    ((get_logger [] "app" 20 none true 104857600 20 false none).1).propagate = false :=
  claim_C8 [] "app" 20 none 104857600 20 false none rfl

/-- C9, counterexample: a first-time call with `mask_sensitive = true` and a
PROVIDED EMPTY pattern list does not attach the claimed no-op
`RedactingFilter` with the empty list; it attaches the default patterns,
because `if not mask_sensitive_patterns` treats the empty list as falsy. -/
theorem claim_C9_counterexample :
    LogFilter.redacting [] ∉
      ((get_logger [] "x" 20 none true 104857600 20 true (some [])).1).filters ∧
    LogFilter.redacting ["password", "token", "apikey", "secret"] ∈
      ((get_logger [] "x" 20 none true 104857600 20 true (some [])).1).filters := by
  decide

/-- C9, amended: on a first-time call with `mask_sensitive = true`, the
logger's filter list is exactly the duplicate filter followed by one
`RedactingFilter`; its patterns are exactly the provided list when that list
is nonempty, and the default set {"password", "token", "apikey", "secret"}
when the argument is omitted (`None`) or the provided list is empty. -/
theorem claim_C9 (st : List (String × LoggerObj)) (name : String) (level : Int)
    (filename : Option String) (console : Bool) (fmb fbc : Nat)
    (ps : List String) (h : regGet st name = none) :
    (ps ≠ [] →
      ((get_logger st name level filename console fmb fbc true (some ps)).1).filters =
        [LogFilter.duplicate freshDup, LogFilter.redacting ps]) ∧
    (ps = [] →
      ((get_logger st name level filename console fmb fbc true (some ps)).1).filters =
        [LogFilter.duplicate freshDup, LogFilter.redacting defaultPatterns]) ∧
    ((get_logger st name level filename console fmb fbc true none).1).filters =
      [LogFilter.duplicate freshDup, LogFilter.redacting defaultPatterns] := by
  refine ⟨fun hp => ?_, fun hp => ?_, ?_⟩
  · simp [get_logger, h, buildLogger, List.isEmpty_iff, hp]
  · subst hp
    simp [get_logger, h, buildLogger]
  · simp [get_logger, h, buildLogger]

theorem claim_C9_witness :
    ((get_logger [] "y" 20 none true 1 2 true (some ["tok"])).1).filters =
      [LogFilter.duplicate freshDup, LogFilter.redacting ["tok"]] ∧
    ((get_logger [] "y" 20 none true 1 2 true none).1).filters =
      [LogFilter.duplicate freshDup, LogFilter.redacting defaultPatterns] :=
  ⟨(claim_C9 [] "y" 20 none true 1 2 ["tok"] rfl).1 (by decide),
    (claim_C9 [] "y" 20 none true 1 2 ["tok"] rfl).2.2⟩
